import Mathlib

/-!
Verification development for the escrow-bot trade state machine (`src/bot.py`).

The embedding models the module-level stores `trade_data` (the Trade
Registry) and `user_active_trades` (the Active-Trade Index) as association
lists with the same ordered-dictionary semantics as Python dicts
(assignment replaces in place or appends; `pop` removes the entry), and the
conversation handlers `enter_amount`, `confirm_trade`, `payment_sent` and
the job `cleanup_old_trades` as pure state-transforming functions that also
return the list of notifications the handler sends.

External inputs that Python obtains from libraries are passed as explicit
parameters: the result of `float(text)` is an `Option ℚ` (`none` models a
`ValueError`), the result of `random.choices(..., k=8)` is a function
`Fin 8 → Fin 32` of indices into the id alphabet, `time.time()` is a `ℚ`
argument, and the `WALLETS` environment lookup is a function
`Crypto → Option String`.  Python numbers are modelled as exact rationals.
Uncaught Python exceptions are modelled by an `Except.error` outcome: the
handler's state and message components then reflect exactly what was
mutated/sent before the raise.
-/

/-- Roles offered by `role_choice` (bot.py:160): the initiating user is
either the buyer or the seller. -/
inductive Role where
  | buyer
  | seller
deriving DecidableEq, Repr

/-- The supported currencies, keys of `WALLETS` (bot.py:39). -/
inductive Crypto where
  | BTC
  | LTC
  | XMR
deriving DecidableEq, Repr

/-- Python exceptions that the modelled handlers can raise and not catch:
`KeyError` from `trade_data[trade_id]` on an absent id, and `NameError`
from the reference to the never-imported `datetime` (bot.py:384). -/
inductive Err where
  | keyError
  | nameError
deriving DecidableEq, Repr

/-- The conversation states of bot.py:32-36 (`range(9)`). -/
inductive ConvState where
  | CHOOSING_ROLE
  | GET_PARTNER_ID
  | TRADE_DETAILS
  | SELECT_CRYPTO
  | ENTER_AMOUNT
  | CONFIRM_TRADE
  | AWAIT_APPROVAL
  | PAYMENT_INSTRUCTIONS
  | PAYMENT_SENT
deriving DecidableEq, Repr

/-- One record of `trade_data` (bot.py:229-243).  `partner_name` is absent
from the dict at creation and only set when the partner approves, hence
`Option`.  `completed` is read by `cleanup_old_trades` via
`.get('completed', False)` (bot.py:97) and never written by the bot (the
spec says it is set externally); it is carried as a plain field defaulting
to `false` at creation. -/
structure Trade where
  user_id : ℤ
  partner_id : ℤ
  user_name : String
  partner_name : Option String
  role : Role
  crypto : Crypto
  amount : ℚ
  fee : ℚ
  total : ℚ
  details : String
  user_approved : Bool
  partner_approved : Bool
  payment_sent : Bool
  timestamp : ℚ
  completed : Bool
deriving DecidableEq, Repr

/-- The payload of a notification the bot sends.  `paymentInstructions`
carries the fields of the message built in
`send_payment_instructions_to_buyer` (bot.py:322-334): trade id, the wallet
address looked up from `WALLETS` for the trade's currency, the total, the
currency, the hard-coded seller handle of bot.py:326, and whether the
message carries the "Payment Sent" inline action (bot.py:334). -/
inductive MsgKind where
  | paymentInstructions (tradeId : String) (wallet : Option String) (total : ℚ)
      (crypto : Crypto) (sellerHandle : String) (hasSentAction : Bool)
  | fullyApproved (tradeId : String)
  | pendingApproval (tradeId : String)
  | approvedAck (tradeId : String)
  | tradeConfirmPrompt (tradeId : String)
  | invalidNumber
  | expired (tradeId : String)
deriving DecidableEq, Repr

/-- A notification: who it is delivered to and what it says. -/
structure Msg where
  recipient : ℤ
  kind : MsgKind
deriving DecidableEq, Repr

/-- Lookup in an ordered-dictionary association list: the value of the
first (in a Python dict: the only) entry with the given key. -/
def alookup {κ ν : Type} [DecidableEq κ] : List (κ × ν) → κ → Option ν
  | [], _ => none
  | (k', v') :: rest, k => if k' = k then some v' else alookup rest k

/-- Python dict assignment `d[k] = v`: replace the entry in place if the
key is present, otherwise append a new entry at the end. -/
def aset {κ ν : Type} [DecidableEq κ] : List (κ × ν) → κ → ν → List (κ × ν)
  | [], k, v => [(k, v)]
  | (k', v') :: rest, k, v =>
      if k' = k then (k, v) :: rest else (k', v') :: aset rest k v

/-- Python dict `d.pop(k, None)`'s effect on the dict: drop the entry with
the given key if present. -/
def aremove {κ ν : Type} [DecidableEq κ] : List (κ × ν) → κ → List (κ × ν)
  | [], _ => []
  | (k', v') :: rest, k =>
      if k' = k then rest else (k', v') :: aremove rest k

/-- The keys of the association list are pairwise distinct — the invariant
every Python dict has. -/
@[reducible] def keysNodup {κ ν : Type} (l : List (κ × ν)) : Prop :=
  (l.map Prod.fst).Nodup

/-- The combined module-level mutable state of bot.py:46-47. -/
structure St where
  trade_data : List (String × Trade)
  user_active_trades : List (ℤ × List String)
deriving DecidableEq, Repr

deriving instance DecidableEq for Except

/-- The outcome of one handler invocation: the state after it, the
notifications it sent, and either the conversation state it returned or
the uncaught exception it raised. -/
structure StepResult where
  st : St
  msgs : List Msg
  outcome : Except Err ConvState
deriving DecidableEq, Repr

/-- The id alphabet of bot.py:221: 32 unambiguous symbols. -/
def ID_ALPHABET : List Char := "ABCDEFGHJKLMNPQRSTUVWXYZ23456789".toList

/-- `''.join(random.choices(ID_ALPHABET, k=8))` (bot.py:221), with the
randomness supplied as the 8 chosen indices. -/
def genId (seed : Fin 8 → Fin 32) : String :=
  String.mk ((List.finRange 8).map (fun i => ID_ALPHABET.getD (seed i).val 'A'))

/-- The dict stored into `trade_data[trade_id]` at bot.py:229-243, with
`fee = amount * 0.02` and `total = amount + fee` (bot.py:217-218). -/
def mkTrade (user_id partner_id : ℤ) (user_name : String) (role : Role)
    (crypto : Crypto) (details : String) (amount : ℚ) (now : ℚ) : Trade :=
  { user_id := user_id
    partner_id := partner_id
    user_name := user_name
    partner_name := none
    role := role
    crypto := crypto
    amount := amount
    fee := amount * 0.02
    total := amount + amount * 0.02
    details := details
    user_approved := false
    partner_approved := false
    payment_sent := false
    timestamp := now
    completed := false }

/-- `user_active_trades.setdefault(uid, []).append(tid)` (bot.py:246-247). -/
def addActive (idx : List (ℤ × List String)) (uid : ℤ) (tid : String) :
    List (ℤ × List String) :=
  aset idx uid ((alookup idx uid).getD [] ++ [tid])

/-- `enter_amount` (bot.py:210-263).  `parsed` is the result of
`float(update.message.text)`: `none` models the `ValueError` branch, which
replies "❌ Please enter a valid number" and stays in `ENTER_AMOUNT`; any
parsed value is accepted without a sign or zero check, the Trade is stored
under the freshly generated id (overwriting any existing entry with that
id — there is no collision check), both parties are registered in the
Active-Trade Index, and the confirmation prompt is sent. -/
def enter_amount (st : St) (user_id partner_id : ℤ) (username : String)
    (role : Role) (crypto : Crypto) (details : String) (parsed : Option ℚ)
    (seed : Fin 8 → Fin 32) (now : ℚ) : StepResult :=
  match parsed with
  | none => ⟨st, [⟨user_id, .invalidNumber⟩], .ok .ENTER_AMOUNT⟩
  | some amount =>
      let trade_id := genId seed
      let trade := mkTrade user_id partner_id username role crypto details amount now
      let st' : St :=
        { trade_data := aset st.trade_data trade_id trade
          user_active_trades :=
            addActive (addActive st.user_active_trades user_id trade_id)
              partner_id trade_id }
      ⟨st', [⟨user_id, .tradeConfirmPrompt trade_id⟩], .ok .CONFIRM_TRADE⟩

/-- The message built and sent by `send_payment_instructions_to_buyer`
(bot.py:317-342): recipient is always `trade['user_id']` (bot.py:338), the
wallet is `WALLETS[trade['crypto']]`, the amount is `trade['total']`, the
seller handle is the hard-coded literal of bot.py:326, and the message
carries the "✅ Payment Sent" button (bot.py:334). -/
def payInstrMessage (wallets : Crypto → Option String) (trade_id : String)
    (trade : Trade) : Msg :=
  ⟨trade.user_id,
   .paymentInstructions trade_id (wallets trade.crypto) trade.total trade.crypto
     "outtathemud" true⟩

/-- The update applied to the stored trade by `confirm_trade`
(bot.py:277-286): the branch is chosen by comparing the caller to
`trade['user_id']` only — any caller different from the initiator sets
`partner_approved` — and the timestamp is refreshed. -/
def approveUpdate (trade : Trade) (user_id : ℤ) (username : String) (now : ℚ) :
    Trade :=
  if trade.user_id = user_id then
    { trade with user_approved := true, user_name := username, timestamp := now }
  else
    { trade with partner_approved := true, partner_name := some username,
                 timestamp := now }

/-- `confirm_trade` (bot.py:265-315).  An absent trade id raises `KeyError`
at bot.py:275 before any mutation or message.  Otherwise the approval flag
chosen by `approveUpdate` is set; payment instructions go out iff the
caller is the initiator and the initiator's role is buyer (bot.py:289);
the "fully approved" notice goes to `trade['partner_id']` (bot.py:357)
whenever both flags are now true; otherwise the other party is nudged; and
the caller's message is edited to an approval acknowledgement. -/
def confirm_trade (wallets : Crypto → Option String) (st : St)
    (trade_id : String) (user_id : ℤ) (username : String) (now : ℚ) :
    StepResult :=
  match alookup st.trade_data trade_id with
  | none => ⟨st, [], .error .keyError⟩
  | some trade =>
      let trade2 := approveUpdate trade user_id username now
      let st' : St := { st with trade_data := aset st.trade_data trade_id trade2 }
      let msgs1 : List Msg :=
        if trade2.user_id = user_id ∧ trade2.role = .buyer then
          [payInstrMessage wallets trade_id trade2]
        else []
      let msgs2 : List Msg :=
        if trade2.user_approved ∧ trade2.partner_approved then
          [⟨trade2.partner_id, .fullyApproved trade_id⟩]
        else []
      let msgs3 : List Msg :=
        if ¬ (trade2.user_approved ∧ trade2.partner_approved) then
          [⟨if trade2.user_id = user_id then trade2.partner_id else trade2.user_id,
            .pendingApproval trade_id⟩]
        else []
      ⟨st', msgs1 ++ msgs2 ++ msgs3 ++ [⟨user_id, .approvedAck trade_id⟩],
       .ok .AWAIT_APPROVAL⟩

/-- `payment_sent` (bot.py:361-409).  An absent trade id raises `KeyError`
at bot.py:367.  Otherwise `payment_sent` and the timestamp are written to
the registry (bot.py:376-377), and then bot.py:384 evaluates
`datetime.now()` — but `datetime` is never imported in bot.py, so this
raises an uncaught `NameError` before any confirmation or the
"verification started" acknowledgement (bot.py:405-409) can be sent. -/
def payment_sent (st : St) (trade_id : String) (_user_id : ℤ) (now : ℚ) :
    StepResult :=
  match alookup st.trade_data trade_id with
  | none => ⟨st, [], .error .keyError⟩
  | some trade =>
      let trade' := { trade with payment_sent := true, timestamp := now }
      ⟨{ st with trade_data := aset st.trade_data trade_id trade' }, [],
       .error .nameError⟩

/-- The expiry predicate of bot.py:85: strictly more than 24 hours of
inactivity. -/
def tradeExpired (now : ℚ) (trade : Trade) : Bool :=
  decide (now - trade.timestamp > 86400)

/-- The snapshot of expired ids taken at bot.py:83-86 before any removal. -/
def expiredIds (st : St) (now : ℚ) : List String :=
  (st.trade_data.filter (fun p => tradeExpired now p.2)).map Prod.fst

/-- bot.py:93-94: `if uid in user_active_trades and tid in
user_active_trades[uid]: user_active_trades[uid].remove(tid)` — removes the
first occurrence. -/
def pruneIdx (idx : List (ℤ × List String)) (uid : ℤ) (tid : String) :
    List (ℤ × List String) :=
  match alookup idx uid with
  | none => idx
  | some l => if tid ∈ l then aset idx uid (l.erase tid) else idx

/-- The body of the per-trade loop at bot.py:88-104: pop the trade, prune
the index entries of both of its parties, and, when the trade is not
completed, notify both parties that it expired. -/
def cleanupOne (acc : St × List Msg) (tid : String) : St × List Msg :=
  match alookup acc.1.trade_data tid with
  | none => acc
  | some trade =>
      (⟨aremove acc.1.trade_data tid,
        pruneIdx (pruneIdx acc.1.user_active_trades trade.user_id tid)
          trade.partner_id tid⟩,
       acc.2 ++
         (if trade.completed then []
          else [⟨trade.user_id, .expired tid⟩, ⟨trade.partner_id, .expired tid⟩]))

/-- `cleanup_old_trades` (bot.py:80-107): snapshot the expired ids, then
process each. -/
def cleanup_old_trades (st : St) (now : ℚ) : St × List Msg :=
  (expiredIds st now).foldl cleanupOne (st, [])

/-- One registry-mutating event, for stating properties over sequences of
operations: an approval button press, a "payment sent" press, or a sweeper
run. -/
inductive Op where
  | approve (trade_id : String) (user_id : ℤ) (username : String) (now : ℚ)
  | paySent (trade_id : String) (user_id : ℤ) (now : ℚ)
  | sweep (now : ℚ)

/-- The state component of running one event. -/
def applyOp (wallets : Crypto → Option String) (st : St) : Op → St
  | .approve tid uid name now => (confirm_trade wallets st tid uid name now).st
  | .paySent tid uid now => (payment_sent st tid uid now).st
  | .sweep now => (cleanup_old_trades st now).1

/-- Running a sequence of events. -/
def applyOps (wallets : Crypto → Option String) (st : St) (ops : List Op) : St :=
  ops.foldl (applyOp wallets) st

/-- Is this notification the payment-instructions message? -/
def isPayInstr (m : Msg) : Bool :=
  match m.kind with
  | .paymentInstructions _ _ _ _ _ _ => true
  | _ => false

/-- Is this notification the "fully approved" notice? -/
def isFullyApprovedNotice (m : Msg) : Bool :=
  match m.kind with
  | .fullyApproved _ => true
  | _ => false

/-- The seller handle a payment-instructions message displays. -/
def msgSellerHandle (m : Msg) : Option String :=
  match m.kind with
  | .paymentInstructions _ _ _ _ sellerHandle _ => some sellerHandle
  | _ => none

/-- A payment-instructions message carries the given trade's id, the wallet
address for the trade's currency, the trade's total, and the "Payment Sent"
action; vacuously true of other message kinds. -/
def payInstrFieldsOk (wallets : Crypto → Option String) (t : Trade)
    (tid : String) (m : Msg) : Bool :=
  match m.kind with
  | .paymentInstructions tid2 w total c _ act =>
      decide (tid2 = tid) && decide (w = wallets t.crypto) &&
        decide (total = t.total) && decide (c = t.crypto) && act
  | _ => true

/-- Read a Bool field of a possibly-absent trade, `true` when absent. -/
def optFlag (o : Option Trade) (f : Trade → Bool) : Bool :=
  match o with
  | none => true
  | some t => f t

/-- Python's `round(x, scale)` on exact rationals (round-half-to-even and
round-half-up agree away from ties, and no statement below sits on a tie). -/
def roundDec (x : ℚ) (scale : ℕ) : ℚ :=
  ((round (x * 10 ^ scale) : ℤ) : ℚ) / 10 ^ scale

/-- A party's Active-Trade Index entry (`user_active_trades.get(uid, [])`). -/
def getIdx (idx : List (ℤ × List String)) (uid : ℤ) : List String :=
  (alookup idx uid).getD []

/-- The expiry notifications `cleanup_old_trades` emits for one trade id
(bot.py:96-104), computed against a fixed state. -/
def noticesFor (st : St) (tid : String) : List Msg :=
  match alookup st.trade_data tid with
  | none => []
  | some t =>
      if t.completed then []
      else [⟨t.user_id, .expired tid⟩, ⟨t.partner_id, .expired tid⟩]

/-- How many expiry notices about trade `tid` the sweep at time `now` should
deliver to party `uid`: two parties are notified iff the trade is expired and
not completed (a party listed twice — a self-trade — is notified twice). -/
def expiredNoticeCount (st : St) (now : ℚ) (tid : String) (uid : ℤ) : ℕ :=
  match alookup st.trade_data tid with
  | none => 0
  | some t =>
      if tradeExpired now t && !t.completed then
        (if t.user_id = uid then 1 else 0) + (if t.partner_id = uid then 1 else 0)
      else 0

/-- `uid` is a party of a trade that the sweep at time `now` removes. -/
def removedPartyOf (st : St) (now : ℚ) (tid : String) (uid : ℤ) : Bool :=
  match alookup st.trade_data tid with
  | none => false
  | some t => tradeExpired now t && (decide (t.user_id = uid) || decide (t.partner_id = uid))

/-- A wallet configuration for concrete instances. -/
def demoWallets : Crypto → Option String := fun _ => some "demo-wallet-addr"

/-- Randomness that always picks index 0, so `genId` yields `"AAAAAAAA"`. -/
def seed0 : Fin 8 → Fin 32 := fun _ => 0

/-- A trade whose initiator (party 1) chose the seller role, so the buyer is
the counterparty (party 2). -/
def demoTrade : Trade := mkTrade 1 2 "alice" Role.seller Crypto.BTC "2 widgets" 1 100

/-- A registry holding `demoTrade` under id "AAAAAAAA". -/
def demoSt : St :=
  ⟨[("AAAAAAAA", demoTrade)], [(1, ["AAAAAAAA"]), (2, ["AAAAAAAA"])]⟩

/-- `demoTrade` after the counterparty has already approved. -/
def demoTradeP : Trade :=
  { demoTrade with partner_approved := true, partner_name := some "bob" }

/-- A registry holding `demoTradeP` under id "AAAAAAAA". -/
def demoStP : St :=
  ⟨[("AAAAAAAA", demoTradeP)], [(1, ["AAAAAAAA"]), (2, ["AAAAAAAA"])]⟩

/-- `demoTrade` after the initiator has approved. -/
def demoTradeU : Trade := { demoTrade with user_approved := true }

/-- A registry holding `demoTradeU` under id "AAAAAAAA". -/
def demoStU : St :=
  ⟨[("AAAAAAAA", demoTradeU)], [(1, ["AAAAAAAA"]), (2, ["AAAAAAAA"])]⟩

/-- A trade created at time 0 between parties 5 and 6: long expired by
time 90000. -/
def demoTradeOld : Trade := mkTrade 5 6 "dave" Role.buyer Crypto.LTC "old deal" 3 0

/-- A trade created at time 89000: fresh at time 90000. -/
def demoTradeFresh : Trade :=
  mkTrade 1 2 "alice" Role.seller Crypto.BTC "2 widgets" 1 89000

/-- A registry with one expired and one fresh trade, for exercising the
sweeper. -/
def demoStSweep : St :=
  ⟨[("AAAAAAAA", demoTradeOld), ("CCCCCCCC", demoTradeFresh)],
   [(5, ["AAAAAAAA"]), (6, ["AAAAAAAA"]), (1, ["CCCCCCCC"]), (2, ["CCCCCCCC"])]⟩

/-- How many of a trade's two party slots the sweep at time `now` prunes
for party `uid`: bot.py:92-94 runs the guarded `remove` once per slot
(initiator, counterparty) of each removed trade, and Python's
`list.remove` drops a single occurrence per call. -/
def slotsOf (st : St) (now : ℚ) (tid : String) (uid : ℤ) : ℕ :=
  match alookup st.trade_data tid with
  | none => 0
  | some t =>
      if tradeExpired now t then
        (if t.user_id = uid then 1 else 0) + (if t.partner_id = uid then 1 else 0)
      else 0

/-- The trade of the reachable id-collision state `demoStDup`. -/
def demoTradeDup : Trade := mkTrade 5 6 "dave" Role.buyer Crypto.LTC "old deal" 3 0

/-- The state after two `enter_amount` creations between parties 5 and 6
whose random draws collide on "AAAAAAAA": the Registry holds a single
trade, but both parties' Active-Trade Index entries list the id twice (the
second `setdefault(...).append` at bot.py:246-247 never deduplicates). -/
def demoStDup : St :=
  ⟨[("AAAAAAAA", demoTradeDup)],
   [(5, ["AAAAAAAA", "AAAAAAAA"]), (6, ["AAAAAAAA", "AAAAAAAA"])]⟩

section AssocLemmas

variable {κ ν : Type} [DecidableEq κ]

theorem alookup_aset_self (l : List (κ × ν)) (k : κ) (v : ν) :
    alookup (aset l k v) k = some v := by
  induction l with
  | nil => simp [aset, alookup]
  | cons p rest ih =>
      obtain ⟨a, b⟩ := p
      by_cases h : a = k <;> simp [aset, alookup, h, ih]

theorem alookup_aset_ne (l : List (κ × ν)) (k k' : κ) (v : ν) (h : k' ≠ k) :
    alookup (aset l k v) k' = alookup l k' := by
  induction l with
  | nil => simp [aset, alookup, Ne.symm h]
  | cons p rest ih =>
      obtain ⟨a, b⟩ := p
      by_cases h2 : a = k
      · subst h2
        simp [aset, alookup, Ne.symm h]
      · by_cases h3 : a = k' <;>
          simp [aset, alookup, h, h2, h3, Ne.symm h, ih]

theorem mem_keys_of_alookup (l : List (κ × ν)) (k : κ) (v : ν)
    (h : alookup l k = some v) : k ∈ l.map Prod.fst := by
  induction l with
  | nil => simp [alookup] at h
  | cons p rest ih =>
      obtain ⟨a, b⟩ := p
      by_cases h2 : a = k
      · simp [h2]
      · simp [alookup, h2] at h
        simp [ih h]

theorem alookup_mem (l : List (κ × ν)) (k : κ) (v : ν)
    (h : alookup l k = some v) : (k, v) ∈ l := by
  induction l with
  | nil => simp [alookup] at h
  | cons p rest ih =>
      obtain ⟨a, b⟩ := p
      by_cases h2 : a = k
      · subst h2
        simp [alookup] at h
        simp [h]
      · simp [alookup, h2] at h
        simp [ih h]

theorem aremove_of_lookup_none (l : List (κ × ν)) (k : κ)
    (h : alookup l k = none) : aremove l k = l := by
  induction l with
  | nil => simp [aremove]
  | cons p rest ih =>
      obtain ⟨a, b⟩ := p
      by_cases h2 : a = k
      · simp [alookup, h2] at h
      · simp [alookup, h2] at h
        simp [aremove, h2, ih h]

theorem alookup_aremove_ne (l : List (κ × ν)) (k k' : κ) (h : k' ≠ k) :
    alookup (aremove l k) k' = alookup l k' := by
  induction l with
  | nil => simp [aremove]
  | cons p rest ih =>
      obtain ⟨a, b⟩ := p
      by_cases h2 : a = k
      · subst h2
        simp [aremove, alookup, Ne.symm h]
      · by_cases h3 : a = k' <;>
          simp [aremove, alookup, h, h2, h3, Ne.symm h, ih]

theorem aremove_sublist (l : List (κ × ν)) (k : κ) : (aremove l k).Sublist l := by
  induction l with
  | nil => simp [aremove]
  | cons p rest ih =>
      obtain ⟨a, b⟩ := p
      by_cases h2 : a = k
      · simp [aremove, h2]
      · simpa [aremove, h2] using List.Sublist.cons₂ (a, b) ih

theorem alookup_aremove_self (l : List (κ × ν)) (k : κ)
    (hk : (l.map Prod.fst).Nodup) : alookup (aremove l k) k = none := by
  induction l with
  | nil => simp [aremove, alookup]
  | cons p rest ih =>
      obtain ⟨a, b⟩ := p
      simp only [List.map_cons, List.nodup_cons] at hk
      by_cases h2 : a = k
      · subst h2
        cases h3 : alookup rest a with
        | none => simp [aremove, h3]
        | some v => exact absurd (mem_keys_of_alookup rest a v h3) hk.1
      · simp [aremove, h2, alookup, ih hk.2]

theorem keysNodup_aremove (l : List (κ × ν)) (k : κ)
    (hk : (l.map Prod.fst).Nodup) : ((aremove l k).map Prod.fst).Nodup :=
  hk.sublist ((aremove_sublist l k).map Prod.fst)

theorem mem_keys_aset (l : List (κ × ν)) (k x : κ) (v : ν) :
    x ∈ (aset l k v).map Prod.fst ↔ x ∈ l.map Prod.fst ∨ x = k := by
  induction l with
  | nil => simp [aset]
  | cons p rest ih =>
      obtain ⟨a, b⟩ := p
      by_cases h2 : a = k
      · subst h2
        by_cases h3 : x = a <;> simp [aset, h3]
      · simp [aset, h2, ih]
        tauto

theorem keysNodup_aset (l : List (κ × ν)) (k : κ) (v : ν)
    (hk : (l.map Prod.fst).Nodup) : ((aset l k v).map Prod.fst).Nodup := by
  induction l with
  | nil => simp [aset]
  | cons p rest ih =>
      obtain ⟨a, b⟩ := p
      simp only [List.map_cons, List.nodup_cons] at hk
      by_cases h2 : a = k
      · subst h2
        simpa [aset] using hk
      · have step : (aset ((a, b) :: rest) k v) = (a, b) :: aset rest k v := by
          simp [aset, h2]
        rw [step, List.map_cons, List.nodup_cons]
        constructor
        · intro hmem
          rw [mem_keys_aset] at hmem
          rcases hmem with hx | hx
          · exact hk.1 hx
          · exact h2 hx
        · exact ih hk.2

theorem aset_length_of_lookup_some (l : List (κ × ν)) (k : κ) (v v' : ν)
    (h : alookup l k = some v) : (aset l k v').length = l.length := by
  induction l with
  | nil => simp [alookup] at h
  | cons p rest ih =>
      obtain ⟨a, b⟩ := p
      by_cases h2 : a = k
      · simp [aset, h2]
      · simp [alookup, h2] at h
        simp [aset, h2, ih h]

theorem mem_aset (l : List (κ × ν)) (k : κ) (v : ν) (p : κ × ν)
    (h : p ∈ aset l k v) : p ∈ l ∨ p = (k, v) := by
  induction l with
  | nil => simpa [aset] using h
  | cons q rest ih =>
      obtain ⟨a, b⟩ := q
      by_cases h2 : a = k
      · subst h2
        simp [aset] at h
        rcases h with h | h
        · right; simp [h]
        · left; simp [h]
      · simp [aset, h2] at h
        rcases h with h | h
        · left; simp [h]
        · rcases ih h with h3 | h3
          · left; simp [h3]
          · right; exact h3

end AssocLemmas

section ApproveUpdateFields

variable (t : Trade) (c : ℤ) (n : String) (now : ℚ)

@[simp] theorem approveUpdate_user_id : (approveUpdate t c n now).user_id = t.user_id := by
  unfold approveUpdate
  split <;> rfl

@[simp] theorem approveUpdate_partner_id :
    (approveUpdate t c n now).partner_id = t.partner_id := by
  unfold approveUpdate
  split <;> rfl

@[simp] theorem approveUpdate_role : (approveUpdate t c n now).role = t.role := by
  unfold approveUpdate
  split <;> rfl

@[simp] theorem approveUpdate_crypto : (approveUpdate t c n now).crypto = t.crypto := by
  unfold approveUpdate
  split <;> rfl

@[simp] theorem approveUpdate_total : (approveUpdate t c n now).total = t.total := by
  unfold approveUpdate
  split <;> rfl

@[simp] theorem approveUpdate_amount : (approveUpdate t c n now).amount = t.amount := by
  unfold approveUpdate
  split <;> rfl

@[simp] theorem approveUpdate_fee : (approveUpdate t c n now).fee = t.fee := by
  unfold approveUpdate
  split <;> rfl

theorem approveUpdate_user_approved :
    (approveUpdate t c n now).user_approved =
      if t.user_id = c then true else t.user_approved := by
  unfold approveUpdate
  split <;> simp_all

theorem approveUpdate_partner_approved :
    (approveUpdate t c n now).partner_approved =
      if t.user_id = c then t.partner_approved else true := by
  unfold approveUpdate
  split <;> simp_all

end ApproveUpdateFields

/-- C1 (amended): when `tradeId` is absent from the Registry, both
`confirm_trade` (`recordApproval`) and `payment_sent` (`recordPaymentSent`)
abort with an uncaught `KeyError` — no "trade no longer exists" (or any
other) message is sent to the user — and the Registry and the Active-Trade
Index are left exactly unchanged. -/
theorem absent_trade_errors (wallets : Crypto → Option String) (st : St)
    (trade_id : String) (caller : ℤ) (username : String) (now now2 : ℚ)
    (h : alookup st.trade_data trade_id = none) :
    confirm_trade wallets st trade_id caller username now = ⟨st, [], .error .keyError⟩
    ∧ payment_sent st trade_id caller now2 = ⟨st, [], .error .keyError⟩ := by
  constructor
  · simp [confirm_trade, h]
  · simp [payment_sent, h]

/-- Witness for `absent_trade_errors` at the empty state and id
"AAAAAAAA". -/
theorem absent_trade_errors_witness :
    alookup (St.mk [] []).trade_data "AAAAAAAA" = none
    ∧ (confirm_trade demoWallets (St.mk [] []) "AAAAAAAA" 1 "alice" 100
         = ⟨St.mk [] [], [], .error .keyError⟩
       ∧ payment_sent (St.mk [] []) "AAAAAAAA" 1 100
         = ⟨St.mk [] [], [], .error .keyError⟩) :=
  ⟨rfl, absent_trade_errors demoWallets (St.mk [] []) "AAAAAAAA" 1 "alice" 100 100 rfl⟩

/-- C1 counterexample to the claim as stated: with the id absent, the
operations report nothing at all to the user (the message list is empty —
in particular no "trade no longer exists" notice) and they do crash (the
outcome is an uncaught `KeyError`). -/
theorem absent_trade_report_refuted :
    (confirm_trade demoWallets (St.mk [] []) "AAAAAAAA" 1 "alice" 100).msgs = []
    ∧ (confirm_trade demoWallets (St.mk [] []) "AAAAAAAA" 1 "alice" 100).outcome
        = .error .keyError
    ∧ (payment_sent (St.mk [] []) "AAAAAAAA" 1 100).msgs = []
    ∧ (payment_sent (St.mk [] []) "AAAAAAAA" 1 100).outcome = .error .keyError :=
  ⟨rfl, rfl, rfl, rfl⟩

/-- C9: on a trade that is present, `payment_sent` commits
`payment_sent := true` and the fresh `lastActivityAt` to the Registry, but
then raises an uncaught `NameError` (bot.py:384 references `datetime`,
which bot.py never imports), so the "verification started" acknowledgement
of bot.py:405-409 is never sent: the message list is empty. -/
theorem payment_sent_commits_then_raises (st : St) (trade_id : String)
    (caller : ℤ) (now : ℚ) (t : Trade)
    (h : alookup st.trade_data trade_id = some t) :
    payment_sent st trade_id caller now =
      ⟨St.mk (aset st.trade_data trade_id
          ({ t with payment_sent := true, timestamp := now })) st.user_active_trades,
       [], .error .nameError⟩ := by
  simp [payment_sent, h]

/-- Witness for `payment_sent_commits_then_raises` on `demoSt`. -/
theorem payment_sent_commits_then_raises_witness :
    alookup demoSt.trade_data "AAAAAAAA" = some demoTrade
    ∧ payment_sent demoSt "AAAAAAAA" 1 200 =
        ⟨St.mk (aset demoSt.trade_data "AAAAAAAA"
            ({ demoTrade with payment_sent := true, timestamp := 200 }))
            demoSt.user_active_trades,
         [], .error .nameError⟩ :=
  ⟨rfl, payment_sent_commits_then_raises demoSt "AAAAAAAA" 1 200 demoTrade rfl⟩

/-- C10: the payment-instructions message names the seller by the fixed
hard-coded handle "outtathemud" (bot.py:326), for every wallet
configuration, trade id and trade record — independent of the trade's
party ids and recorded usernames. -/
theorem payment_instructions_seller_hardcoded (wallets : Crypto → Option String)
    (trade_id : String) (trade : Trade) :
    msgSellerHandle (payInstrMessage wallets trade_id trade) = some "outtathemud" :=
  rfl

/-- C4 (amended): in the `ENTER_AMOUNT` step, a text that `float()` fails
to parse is rejected — the submitter is re-prompted with an error in the
same state and the whole state (Registry and Active-Trade Index) is
unchanged; a text that parses is accepted whatever its value (the code has
no positivity check), the Trade is created and stored, and the conversation
moves to `CONFIRM_TRADE`. -/
theorem enter_amount_validation (st : St) (user_id partner_id : ℤ)
    (username : String) (role : Role) (crypto : Crypto) (details : String)
    (seed : Fin 8 → Fin 32) (now a : ℚ) :
    enter_amount st user_id partner_id username role crypto details none seed now
      = ⟨st, [⟨user_id, .invalidNumber⟩], .ok .ENTER_AMOUNT⟩
    ∧ (enter_amount st user_id partner_id username role crypto details (some a) seed now).outcome
      = .ok .CONFIRM_TRADE
    ∧ alookup (enter_amount st user_id partner_id username role crypto details (some a) seed now).st.trade_data (genId seed)
      = some (mkTrade user_id partner_id username role crypto details a now) := by
  refine ⟨rfl, rfl, ?_⟩
  simp only [enter_amount]
  exact alookup_aset_self _ _ _

/-- C4 counterexample to the claim as stated: the non-positive input -5
parses as a float, so it is accepted — a Trade with amount -5 is created
and the conversation advances — even though -5 is not a positive number. -/
theorem negative_amount_accepted :
    (enter_amount (St.mk [] []) 1 2 "alice" Role.buyer Crypto.BTC "w" (some (-5)) seed0 100).outcome
      = .ok .CONFIRM_TRADE
    ∧ alookup (enter_amount (St.mk [] []) 1 2 "alice" Role.buyer Crypto.BTC "w" (some (-5)) seed0 100).st.trade_data (genId seed0)
      = some (mkTrade 1 2 "alice" Role.buyer Crypto.BTC "w" (-5) 100)
    ∧ ¬ (0:ℚ) < -5 :=
  ⟨rfl, rfl, by norm_num⟩

/-- C5 (amended): the Trade the `ENTER_AMOUNT` step stores has
`fee = amount * 0.02` exactly — no rounding is applied at any scale
(bot.py:217) — and `total = amount + fee` exactly, so both derived fields
are recomputable from `amount` alone. -/
theorem fee_total_recomputation (st : St) (user_id partner_id : ℤ)
    (username : String) (role : Role) (crypto : Crypto) (details : String)
    (seed : Fin 8 → Fin 32) (now a : ℚ) (t : Trade)
    (h : alookup (enter_amount st user_id partner_id username role crypto details (some a) seed now).st.trade_data (genId seed)
      = some t) :
    t.amount = a ∧ t.fee = t.amount * 0.02 ∧ t.total = t.amount + t.fee := by
  simp only [enter_amount] at h
  rw [alookup_aset_self] at h
  injection h with h
  subst h
  exact ⟨rfl, rfl, rfl⟩

/-- Witness for `fee_total_recomputation` at amount 1. -/
theorem fee_total_recomputation_witness :
    alookup (enter_amount (St.mk [] []) 1 2 "alice" Role.buyer Crypto.BTC "w" (some 1) seed0 100).st.trade_data (genId seed0)
      = some (mkTrade 1 2 "alice" Role.buyer Crypto.BTC "w" 1 100)
    ∧ ((mkTrade 1 2 "alice" Role.buyer Crypto.BTC "w" 1 100).amount = 1
       ∧ (mkTrade 1 2 "alice" Role.buyer Crypto.BTC "w" 1 100).fee
           = (mkTrade 1 2 "alice" Role.buyer Crypto.BTC "w" 1 100).amount * 0.02
       ∧ (mkTrade 1 2 "alice" Role.buyer Crypto.BTC "w" 1 100).total
           = (mkTrade 1 2 "alice" Role.buyer Crypto.BTC "w" 1 100).amount
             + (mkTrade 1 2 "alice" Role.buyer Crypto.BTC "w" 1 100).fee) :=
  ⟨rfl, fee_total_recomputation (St.mk [] []) 1 2 "alice" Role.buyer Crypto.BTC "w"
    seed0 100 1 (mkTrade 1 2 "alice" Role.buyer Crypto.BTC "w" 1 100) rfl⟩

/-- C5 counterexample to the claim as stated: the stored fee is the raw
product `amount * 0.02`, never `round(amount * 0.02, scale)`.  At the valid
amount `a = 0.00000001` the stored fee differs from rounding at the code's
8-decimal display scale; and no scale whatsoever makes
`fee = round(a * 0.02, scale)` hold for all positive amounts. -/
theorem fee_rounding_refuted :
    (mkTrade 1 2 "alice" Role.buyer Crypto.BTC "w" (1/100000000) 100).fee
      ≠ roundDec ((mkTrade 1 2 "alice" Role.buyer Crypto.BTC "w" (1/100000000) 100).amount * 0.02) 8
    ∧ ¬ ∃ scale : ℕ, ∀ a : ℚ, 0 < a →
        (mkTrade 1 2 "alice" Role.buyer Crypto.BTC "w" a 100).fee
          = roundDec (a * 0.02) scale := by
  constructor
  · show (1/100000000 : ℚ) * 0.02 ≠ roundDec ((1/100000000 : ℚ) * 0.02) 8
    have h0 : roundDec ((1:ℚ)/100000000 * 0.02) 8 = 0 := by
      rw [roundDec]
      rw [show ((1:ℚ)/100000000 * 0.02 * 10 ^ 8) = 1/50 by norm_num]
      rw [round_eq_zero_iff.2 (by constructor <;> norm_num)]
      norm_num
    rw [h0]
    norm_num
  · rintro ⟨s, hs⟩
    have hpos : (0:ℚ) < 1 / 10 ^ (s + 10) := by positivity
    have h1 : (1 / (10:ℚ) ^ (s + 10)) * 0.02 = roundDec ((1 / (10:ℚ) ^ (s + 10)) * 0.02) s :=
      hs (1 / 10 ^ (s + 10)) hpos
    have h10 : (10:ℚ) ^ s ≠ 0 := pow_ne_zero _ (by norm_num)
    have hx : (1 / (10:ℚ) ^ (s + 10) * 0.02) * 10 ^ s = 1 / 500000000000 := by
      rw [pow_add]
      field_simp
      ring
    rw [roundDec, hx] at h1
    rw [round_eq_zero_iff.2 (by constructor <;> norm_num)] at h1
    rw [Int.cast_zero, zero_div] at h1
    have hlt : (0:ℚ) < 1 / 10 ^ (s + 10) * 0.02 := by positivity
    rw [h1] at hlt
    exact lt_irrefl 0 hlt

/-- C6 (amended): every generated trade id is an 8-character string over
the fixed 32-symbol alphabet of bot.py:221, but no collision check is
performed: the new Trade is stored at the generated id unconditionally, so
when the id already names a Registry entry the old Trade is overwritten and
the Registry does not grow. -/
theorem trade_id_shape_and_overwrite (st : St) (user_id partner_id : ℤ)
    (username : String) (role : Role) (crypto : Crypto) (details : String)
    (a : ℚ) (seed : Fin 8 → Fin 32) (now : ℚ) (told : Trade)
    (h : alookup st.trade_data (genId seed) = some told) :
    (genId seed).length = 8
    ∧ (genId seed).toList.all (fun c => ID_ALPHABET.contains c) = true
    ∧ alookup (enter_amount st user_id partner_id username role crypto details (some a) seed now).st.trade_data (genId seed)
        = some (mkTrade user_id partner_id username role crypto details a now)
    ∧ (enter_amount st user_id partner_id username role crypto details (some a) seed now).st.trade_data.length
        = st.trade_data.length := by
  refine ⟨rfl, ?_, ?_, ?_⟩
  · have hall : ∀ i : Fin 32, ID_ALPHABET.contains (ID_ALPHABET.getD i.val 'A') = true := by
      decide
    rw [List.all_eq_true]
    intro c hc
    have hc2 : c ∈ (List.finRange 8).map (fun i => ID_ALPHABET.getD (seed i).val 'A') := hc
    rcases List.mem_map.1 hc2 with ⟨i, _, rfl⟩
    exact hall (seed i)
  · simp only [enter_amount]
    exact alookup_aset_self _ _ _
  · simp only [enter_amount]
    exact aset_length_of_lookup_some _ _ _ _ h

/-- Witness for `trade_id_shape_and_overwrite`: `demoSt` already holds a
trade under "AAAAAAAA" = `genId seed0`. -/
theorem trade_id_shape_and_overwrite_witness :
    alookup demoSt.trade_data (genId seed0) = some demoTrade
    ∧ ((genId seed0).length = 8
       ∧ (genId seed0).toList.all (fun c => ID_ALPHABET.contains c) = true
       ∧ alookup (enter_amount demoSt 3 4 "carol" Role.buyer Crypto.LTC "v" (some 2) seed0 200).st.trade_data (genId seed0)
           = some (mkTrade 3 4 "carol" Role.buyer Crypto.LTC "v" 2 200)
       ∧ (enter_amount demoSt 3 4 "carol" Role.buyer Crypto.LTC "v" (some 2) seed0 200).st.trade_data.length
           = demoSt.trade_data.length) :=
  ⟨rfl, trade_id_shape_and_overwrite demoSt 3 4 "carol" Role.buyer Crypto.LTC "v"
    2 seed0 200 demoTrade rfl⟩

/-- C6 counterexample to the claim as stated: creating two trades that draw
the same id leaves the Registry with a single entry — the first trade is
silently overwritten instead of a fresh id being generated. -/
theorem id_collision_loses_trade :
    (enter_amount (St.mk [] []) 1 2 "alice" Role.buyer Crypto.BTC "w" (some 1) seed0 100).st.trade_data.length = 1
    ∧ (enter_amount (enter_amount (St.mk [] []) 1 2 "alice" Role.buyer Crypto.BTC "w" (some 1) seed0 100).st
         3 4 "carol" Role.seller Crypto.LTC "v" (some 2) seed0 200).st.trade_data.length = 1 :=
  ⟨rfl, rfl⟩

/-- The exact message list `confirm_trade` produces on a present trade,
expressed over the original trade record. -/
theorem confirm_trade_msgs (wallets : Crypto → Option String) (st : St)
    (trade_id : String) (caller : ℤ) (username : String) (now : ℚ) (t : Trade)
    (h : alookup st.trade_data trade_id = some t) :
    (confirm_trade wallets st trade_id caller username now).msgs =
      (if t.user_id = caller ∧ t.role = Role.buyer then
         [payInstrMessage wallets trade_id (approveUpdate t caller username now)]
       else [])
      ++ (if (approveUpdate t caller username now).user_approved
            ∧ (approveUpdate t caller username now).partner_approved then
           [⟨t.partner_id, .fullyApproved trade_id⟩]
         else [])
      ++ (if ¬ ((approveUpdate t caller username now).user_approved
            ∧ (approveUpdate t caller username now).partner_approved) then
           [⟨if t.user_id = caller then t.partner_id else t.user_id,
             .pendingApproval trade_id⟩]
         else [])
      ++ [⟨caller, .approvedAck trade_id⟩] := by
  simp only [confirm_trade, h, approveUpdate_user_id, approveUpdate_role,
    approveUpdate_partner_id]

/-- The state `confirm_trade` leaves on a present trade: the updated record
stored back at the same id, index untouched. -/
theorem confirm_trade_st (wallets : Crypto → Option String) (st : St)
    (trade_id : String) (caller : ℤ) (username : String) (now : ℚ) (t : Trade)
    (h : alookup st.trade_data trade_id = some t) :
    (confirm_trade wallets st trade_id caller username now).st =
      St.mk (aset st.trade_data trade_id (approveUpdate t caller username now))
        st.user_active_trades := by
  simp only [confirm_trade, h]

/-- C2 (amended): within one `confirm_trade` call on a present trade, a
payment-instructions message is emitted iff the caller is the initiator
and the initiator's role is buyer (bot.py:289) — when the buyer is the
counterparty, no instructions are emitted on the buyer's approval — and any
emitted instructions go to the initiator (`trade['user_id']`, bot.py:338)
carrying the trade's id, the wallet address for its currency, its total,
and the "Payment Sent" action. -/
theorem buyer_instructions_characterization (wallets : Crypto → Option String)
    (st : St) (trade_id : String) (caller : ℤ) (username : String) (now : ℚ)
    (t : Trade) (h : alookup st.trade_data trade_id = some t) :
    ((confirm_trade wallets st trade_id caller username now).msgs.countP isPayInstr
       = if t.user_id = caller ∧ t.role = Role.buyer then 1 else 0)
    ∧ ((confirm_trade wallets st trade_id caller username now).msgs.all
         (fun m => !isPayInstr m
            || (decide (m.recipient = t.user_id) && payInstrFieldsOk wallets t trade_id m)) = true) := by
  rw [confirm_trade_msgs wallets st trade_id caller username now t h]
  constructor
  · by_cases hb : t.user_id = caller ∧ t.role = Role.buyer <;>
      by_cases ha : (approveUpdate t caller username now).user_approved = true
          ∧ (approveUpdate t caller username now).partner_approved = true <;>
      simp [hb, ha, List.countP_append, List.countP_cons, isPayInstr, payInstrMessage]
  · by_cases hb : t.user_id = caller ∧ t.role = Role.buyer <;>
      by_cases ha : (approveUpdate t caller username now).user_approved = true
          ∧ (approveUpdate t caller username now).partner_approved = true <;>
      simp [hb, ha, List.all_append, isPayInstr, payInstrMessage, payInstrFieldsOk]

/-- Witness for `buyer_instructions_characterization`: the counterparty
(the buyer, since the initiator chose seller) approves `demoTrade`. -/
theorem buyer_instructions_characterization_witness :
    alookup demoSt.trade_data "AAAAAAAA" = some demoTrade
    ∧ (((confirm_trade demoWallets demoSt "AAAAAAAA" 2 "bob" 200).msgs.countP isPayInstr
         = if demoTrade.user_id = 2 ∧ demoTrade.role = Role.buyer then 1 else 0)
       ∧ ((confirm_trade demoWallets demoSt "AAAAAAAA" 2 "bob" 200).msgs.all
            (fun m => !isPayInstr m
               || (decide (m.recipient = demoTrade.user_id)
                   && payInstrFieldsOk demoWallets demoTrade "AAAAAAAA" m)) = true)) :=
  ⟨rfl, buyer_instructions_characterization demoWallets demoSt "AAAAAAAA" 2 "bob" 200
    demoTrade rfl⟩

/-- C2 counterexample to the claim as stated: in `demoTrade` the buyer is
the counterparty (party 2, since the initiator chose the seller role);
party 2's approval emits no payment-instructions message at all — the buyer
does not receive payment instructions on their own approval. -/
theorem buyer_counterparty_no_instructions :
    demoTrade.role = Role.seller
    ∧ demoTrade.partner_id = 2
    ∧ (confirm_trade demoWallets demoSt "AAAAAAAA" 2 "bob" 200).msgs.countP isPayInstr = 0 :=
  ⟨rfl, rfl, rfl⟩

/-- C3 (amended): within one `confirm_trade` call on a present trade,
exactly one "fully approved" notice is emitted iff after this approval both
flags are true (also on a re-approval when both were already true), and it
is always addressed to `trade['partner_id']` — the counterparty
(bot.py:357) — not to the seller-role party: when the initiator is the
seller, the notice goes to the buyer. -/
theorem fully_approved_notice_characterization (wallets : Crypto → Option String)
    (st : St) (trade_id : String) (caller : ℤ) (username : String) (now : ℚ)
    (t : Trade) (h : alookup st.trade_data trade_id = some t) :
    ((confirm_trade wallets st trade_id caller username now).msgs.countP isFullyApprovedNotice
       = if (if t.user_id = caller then t.partner_approved else t.user_approved) = true
         then 1 else 0)
    ∧ ((confirm_trade wallets st trade_id caller username now).msgs.all
         (fun m => !isFullyApprovedNotice m || decide (m.recipient = t.partner_id)) = true) := by
  rw [confirm_trade_msgs wallets st trade_id caller username now t h]
  constructor
  · by_cases hc : t.user_id = caller <;>
      by_cases hr : t.role = Role.buyer <;>
      cases hpa : t.partner_approved <;>
      cases hua : t.user_approved <;>
      simp [hc, hr, hpa, hua, approveUpdate_user_approved,
        approveUpdate_partner_approved, List.countP_append, List.countP_cons,
        isFullyApprovedNotice, isPayInstr, payInstrMessage]
  · by_cases hc : t.user_id = caller <;>
      by_cases hr : t.role = Role.buyer <;>
      cases hpa : t.partner_approved <;>
      cases hua : t.user_approved <;>
      simp [hc, hr, hpa, hua, approveUpdate_user_approved,
        approveUpdate_partner_approved, List.all_append, isFullyApprovedNotice,
        payInstrMessage]

/-- Witness for `fully_approved_notice_characterization`: the initiator
approves `demoTradeP`, whose counterparty has already approved. -/
theorem fully_approved_notice_characterization_witness :
    alookup demoStP.trade_data "AAAAAAAA" = some demoTradeP
    ∧ (((confirm_trade demoWallets demoStP "AAAAAAAA" 1 "alice" 300).msgs.countP isFullyApprovedNotice
         = if (if demoTradeP.user_id = 1 then demoTradeP.partner_approved
               else demoTradeP.user_approved) = true then 1 else 0)
       ∧ ((confirm_trade demoWallets demoStP "AAAAAAAA" 1 "alice" 300).msgs.all
            (fun m => !isFullyApprovedNotice m
               || decide (m.recipient = demoTradeP.partner_id)) = true)) :=
  ⟨rfl, fully_approved_notice_characterization demoWallets demoStP "AAAAAAAA" 1 "alice" 300
    demoTradeP rfl⟩

/-- C3 counterexample to the claim as stated: in `demoTradeP` the initiator
(party 1) is the seller and the counterparty (party 2) the buyer; when the
initiator's approval completes the pair, the "fully approved" notice is
delivered to party 2 — the buyer — and not to the seller. -/
theorem fully_approved_notice_to_buyer :
    demoTradeP.role = Role.seller
    ∧ (confirm_trade demoWallets demoStP "AAAAAAAA" 1 "alice" 300).msgs.countP
        (fun m => isFullyApprovedNotice m && decide (m.recipient = (2:ℤ))) = 1
    ∧ (confirm_trade demoWallets demoStP "AAAAAAAA" 1 "alice" 300).msgs.countP
        (fun m => isFullyApprovedNotice m && decide (m.recipient = (1:ℤ))) = 0 :=
  ⟨rfl, rfl, rfl⟩

section SweeperRegistry

variable {κ ν : Type} [DecidableEq κ]

theorem alookup_of_mem_nodup (l : List (κ × ν)) (k : κ) (v : ν)
    (hk : (l.map Prod.fst).Nodup) (h : (k, v) ∈ l) : alookup l k = some v := by
  induction l with
  | nil => simp at h
  | cons p rest ih =>
      obtain ⟨a, b⟩ := p
      simp only [List.map_cons, List.nodup_cons] at hk
      rcases List.mem_cons.1 h with h1 | h1
      · injection h1 with h1a h1b
        subst h1a
        subst h1b
        simp [alookup]
      · by_cases h2 : a = k
        · subst h2
          exact absurd (List.mem_map_of_mem Prod.fst h1) hk.1
        · simp [alookup, h2, ih hk.2 h1]

theorem foldl_aremove_nodup (L : List κ) (l : List (κ × ν))
    (hk : (l.map Prod.fst).Nodup) : ((L.foldl aremove l).map Prod.fst).Nodup := by
  induction L generalizing l with
  | nil => exact hk
  | cons a L ih => exact ih _ (keysNodup_aremove _ _ hk)

theorem alookup_foldl_aremove (L : List κ) (l : List (κ × ν)) (x : κ)
    (hk : (l.map Prod.fst).Nodup) :
    alookup (L.foldl aremove l) x = if x ∈ L then none else alookup l x := by
  induction L generalizing l with
  | nil => simp
  | cons a L ih =>
      rw [List.foldl_cons, ih _ (keysNodup_aremove _ _ hk)]
      by_cases hx : x ∈ L
      · simp [hx]
      · by_cases hxa : x = a
        · subst hxa
          simp [hx, alookup_aremove_self _ _ hk]
        · simp [hx, hxa, alookup_aremove_ne _ _ _ hxa]

end SweeperRegistry

theorem cleanupOne_trade_data (acc : St × List Msg) (tid : String) :
    (cleanupOne acc tid).1.trade_data = aremove acc.1.trade_data tid := by
  cases h : alookup acc.1.trade_data tid with
  | none => simp [cleanupOne, h, aremove_of_lookup_none _ _ h]
  | some t => simp [cleanupOne, h]

theorem cleanup_foldl_trade_data (L : List String) (acc : St × List Msg) :
    (L.foldl cleanupOne acc).1.trade_data = L.foldl aremove acc.1.trade_data := by
  induction L generalizing acc with
  | nil => rfl
  | cons a L ih =>
      rw [List.foldl_cons, List.foldl_cons, ih, cleanupOne_trade_data]

theorem cleanup_trade_data_lookup (st : St) (now : ℚ) (tid : String)
    (hk : keysNodup st.trade_data) :
    alookup (cleanup_old_trades st now).1.trade_data tid
      = if tid ∈ expiredIds st now then none else alookup st.trade_data tid := by
  rw [cleanup_old_trades, cleanup_foldl_trade_data, alookup_foldl_aremove _ _ _ hk]

theorem mem_expiredIds (st : St) (now : ℚ) (tid : String)
    (hk : keysNodup st.trade_data) :
    tid ∈ expiredIds st now ↔
      ∃ t, alookup st.trade_data tid = some t ∧ tradeExpired now t = true := by
  unfold expiredIds
  simp only [List.mem_map, List.mem_filter]
  constructor
  · rintro ⟨⟨k, t⟩, ⟨hmem, hexp⟩, rfl⟩
    exact ⟨t, alookup_of_mem_nodup _ _ _ hk hmem, hexp⟩
  · rintro ⟨t, hlk, hexp⟩
    exact ⟨(tid, t), ⟨alookup_mem _ _ _ hlk, hexp⟩, rfl⟩

theorem applyOp_keysNodup (wallets : Crypto → Option String) (st : St) (op : Op)
    (hk : keysNodup st.trade_data) : keysNodup (applyOp wallets st op).trade_data := by
  cases op with
  | approve tid uid name now =>
      cases h : alookup st.trade_data tid with
      | none =>
          simp only [applyOp, confirm_trade, h]
          exact hk
      | some t =>
          simp only [applyOp, confirm_trade, h]
          exact keysNodup_aset _ _ _ hk
  | paySent tid uid now =>
      cases h : alookup st.trade_data tid with
      | none =>
          simp only [applyOp, payment_sent, h]
          exact hk
      | some t =>
          simp only [applyOp, payment_sent, h]
          exact keysNodup_aset _ _ _ hk
  | sweep now =>
      simp only [applyOp, cleanup_old_trades]
      rw [cleanup_foldl_trade_data]
      exact foldl_aremove_nodup _ _ hk

theorem applyOp_optFlag_mono (wallets : Crypto → Option String) (st : St) (op : Op)
    (tid : String) (hk : keysNodup st.trade_data) :
    (optFlag (alookup st.trade_data tid) Trade.user_approved = true →
       optFlag (alookup (applyOp wallets st op).trade_data tid) Trade.user_approved = true)
    ∧ (optFlag (alookup st.trade_data tid) Trade.partner_approved = true →
       optFlag (alookup (applyOp wallets st op).trade_data tid) Trade.partner_approved = true) := by
  cases op with
  | approve tid2 uid name now =>
      cases h : alookup st.trade_data tid2 with
      | none => simp [applyOp, confirm_trade, h]
      | some t =>
          have hst := confirm_trade_st wallets st tid2 uid name now t h
          simp only [applyOp, hst]
          by_cases he : tid = tid2
          · subst he
            rw [alookup_aset_self, h]
            constructor <;> intro hf <;>
              simp only [optFlag, approveUpdate_user_approved,
                approveUpdate_partner_approved] at hf ⊢ <;>
              split <;> simp [hf]
          · rw [alookup_aset_ne _ _ _ _ he]
            exact ⟨id, id⟩
  | paySent tid2 uid now =>
      cases h : alookup st.trade_data tid2 with
      | none => simp [applyOp, payment_sent, h]
      | some t =>
          simp only [applyOp, payment_sent, h]
          by_cases he : tid = tid2
          · subst he
            rw [alookup_aset_self, h]
            exact ⟨id, id⟩
          · rw [alookup_aset_ne _ _ _ _ he]
            exact ⟨id, id⟩
  | sweep now =>
      have hlk := cleanup_trade_data_lookup st now tid hk
      simp only [applyOp, hlk]
      by_cases hmem : tid ∈ expiredIds st now
      · simp [hmem, optFlag]
      · simp only [hmem, if_neg]
        exact ⟨id, id⟩

theorem applyOps_optFlag_mono (wallets : Crypto → Option String) (st : St)
    (ops : List Op) (tid : String) (hk : keysNodup st.trade_data) :
    (optFlag (alookup st.trade_data tid) Trade.user_approved = true →
       optFlag (alookup (applyOps wallets st ops).trade_data tid) Trade.user_approved = true)
    ∧ (optFlag (alookup st.trade_data tid) Trade.partner_approved = true →
       optFlag (alookup (applyOps wallets st ops).trade_data tid) Trade.partner_approved = true) := by
  induction ops generalizing st with
  | nil => exact ⟨id, id⟩
  | cons op ops ih =>
      have h1 := applyOp_optFlag_mono wallets st op tid hk
      have h2 := ih (applyOp wallets st op) (applyOp_keysNodup wallets st op hk)
      exact ⟨fun hf => h2.1 (h1.1 hf), fun hf => h2.2 (h1.2 hf)⟩

/-- C7 (amended): the approval flags are monotone — once a present trade's
`user_approved` (or `partner_approved`) is true, it stays true under any
sequence of approval, payment-sent and sweeper events (the trade is either
still present with the flag still true, or removed) — and `confirm_trade`
chooses the field to write solely by comparing the caller to
`trade['user_id']` (bot.py:278): the initiator's call writes
`user_approved`, while a call from ANY other party id writes
`partner_approved`, not necessarily the counterparty's own flag. -/
theorem approval_flags_monotonic (wallets : Crypto → Option String) (st : St)
    (ops : List Op) (tid : String) (t : Trade) (caller : ℤ) (username : String)
    (now : ℚ) (hk : keysNodup st.trade_data)
    (h : alookup st.trade_data tid = some t) :
    (t.user_approved = true →
       optFlag (alookup (applyOps wallets st ops).trade_data tid) Trade.user_approved = true)
    ∧ (t.partner_approved = true →
       optFlag (alookup (applyOps wallets st ops).trade_data tid) Trade.partner_approved = true)
    ∧ (t.user_id = caller →
        alookup (confirm_trade wallets st tid caller username now).st.trade_data tid
          = some { t with user_approved := true, user_name := username, timestamp := now })
    ∧ (t.user_id ≠ caller →
        alookup (confirm_trade wallets st tid caller username now).st.trade_data tid
          = some { t with partner_approved := true, partner_name := some username,
                          timestamp := now }) := by
  have hm := applyOps_optFlag_mono wallets st ops tid hk
  refine ⟨?_, ?_, ?_, ?_⟩
  · intro hf
    apply hm.1
    rw [h]
    exact hf
  · intro hf
    apply hm.2
    rw [h]
    exact hf
  · intro hcc
    rw [confirm_trade_st wallets st tid caller username now t h, alookup_aset_self]
    unfold approveUpdate
    rw [if_pos hcc]
  · intro hcc
    rw [confirm_trade_st wallets st tid caller username now t h, alookup_aset_self]
    unfold approveUpdate
    rw [if_neg hcc]

/-- Witness for `approval_flags_monotonic`: `demoTradeU` has
`user_approved = true`; a payment-sent press, a sweeper run and the
counterparty's approval follow. -/
theorem approval_flags_monotonic_witness :
    (keysNodup demoStU.trade_data
     ∧ alookup demoStU.trade_data "AAAAAAAA" = some demoTradeU)
    ∧ ((demoTradeU.user_approved = true →
          optFlag (alookup (applyOps demoWallets demoStU
              [Op.paySent "AAAAAAAA" 1 150, Op.sweep 200,
               Op.approve "AAAAAAAA" 2 "bob" 250]).trade_data "AAAAAAAA")
            Trade.user_approved = true)
       ∧ (demoTradeU.partner_approved = true →
          optFlag (alookup (applyOps demoWallets demoStU
              [Op.paySent "AAAAAAAA" 1 150, Op.sweep 200,
               Op.approve "AAAAAAAA" 2 "bob" 250]).trade_data "AAAAAAAA")
            Trade.partner_approved = true)
       ∧ (demoTradeU.user_id = 1 →
          alookup (confirm_trade demoWallets demoStU "AAAAAAAA" 1 "zed" 300).st.trade_data "AAAAAAAA"
            = some { demoTradeU with user_approved := true, user_name := "zed",
                                     timestamp := 300 })
       ∧ (demoTradeU.user_id ≠ 1 →
          alookup (confirm_trade demoWallets demoStU "AAAAAAAA" 1 "zed" 300).st.trade_data "AAAAAAAA"
            = some { demoTradeU with partner_approved := true,
                                     partner_name := some "zed", timestamp := 300 })) :=
  ⟨⟨by decide, rfl⟩,
   approval_flags_monotonic demoWallets demoStU
     [Op.paySent "AAAAAAAA" 1 150, Op.sweep 200, Op.approve "AAAAAAAA" 2 "bob" 250]
     "AAAAAAAA" demoTradeU 1 "zed" 300 (by decide) rfl⟩

/-- C7 counterexample to the claim as stated: party 999 — neither the
initiator (1) nor the counterparty (2) of `demoTrade` — presses approve,
and the code flips `partner_approved` from false to true: the flag is
written by a party that does not own it. -/
theorem partner_flag_set_by_third_party :
    (999 : ℤ) ≠ demoTrade.user_id
    ∧ (999 : ℤ) ≠ demoTrade.partner_id
    ∧ demoTrade.partner_approved = false
    ∧ optFlag (alookup (confirm_trade demoWallets demoSt "AAAAAAAA" 999 "mallory" 400).st.trade_data "AAAAAAAA")
        Trade.partner_approved = true :=
  ⟨by decide, by decide, rfl, rfl⟩

theorem expiredIds_nodup (st : St) (now : ℚ) (hk : keysNodup st.trade_data) :
    (expiredIds st now).Nodup := by
  unfold expiredIds
  exact hk.sublist ((List.filter_sublist _).map Prod.fst)

theorem cleanupOne_msgs (acc : St × List Msg) (tid : String) :
    (cleanupOne acc tid).2 = acc.2 ++ noticesFor acc.1 tid := by
  cases h : alookup acc.1.trade_data tid with
  | none => simp [cleanupOne, noticesFor, h]
  | some t => simp [cleanupOne, noticesFor, h]

theorem noticesFor_congr (st st2 : St) (tid : String)
    (h : alookup st.trade_data tid = alookup st2.trade_data tid) :
    noticesFor st tid = noticesFor st2 tid := by
  unfold noticesFor
  rw [h]

theorem flatMap_congr_mem {α β : Type} (L : List α) (f g : α → List β)
    (h : ∀ x ∈ L, f x = g x) : L.flatMap f = L.flatMap g := by
  induction L with
  | nil => rfl
  | cons a L ih =>
      rw [List.flatMap_cons, List.flatMap_cons, h a (List.mem_cons_self a L),
        ih (fun x hx => h x (List.mem_cons_of_mem a hx))]

theorem cleanup_foldl_msgs (L : List String) (st : St) (ms : List Msg)
    (hk : keysNodup st.trade_data) (hL : L.Nodup) :
    (L.foldl cleanupOne (st, ms)).2 = ms ++ L.flatMap (noticesFor st) := by
  induction L generalizing st ms with
  | nil => simp
  | cons a L ih =>
      rw [List.foldl_cons]
      rcases List.nodup_cons.1 hL with ⟨ha, hL2⟩
      have hstep1 : (cleanupOne (st, ms) a).1.trade_data = aremove st.trade_data a :=
        cleanupOne_trade_data (st, ms) a
      have hk2 : keysNodup (cleanupOne (st, ms) a).1.trade_data := by
        rw [hstep1]
        exact keysNodup_aremove _ _ hk
      have hrec := ih (cleanupOne (st, ms) a).1 (cleanupOne (st, ms) a).2 hk2 hL2
      rw [Prod.mk.eta] at hrec
      rw [hrec, cleanupOne_msgs (st, ms) a]
      have hcongr : L.flatMap (noticesFor (cleanupOne (st, ms) a).1)
          = L.flatMap (noticesFor st) := by
        apply flatMap_congr_mem
        intro x hx
        apply noticesFor_congr
        rw [hstep1]
        exact alookup_aremove_ne _ _ _ (fun he => ha (he ▸ hx))
      rw [hcongr, List.flatMap_cons, List.append_assoc]

theorem countP_flatMap_zero {α : Type} (L : List α) (f : α → List Msg)
    (p : Msg → Bool) (hz : ∀ x ∈ L, (f x).countP p = 0) :
    (L.flatMap f).countP p = 0 := by
  induction L with
  | nil => rfl
  | cons a L ih =>
      rw [List.flatMap_cons, List.countP_append, hz a (List.mem_cons_self a L),
        ih (fun x hx => hz x (List.mem_cons_of_mem a hx))]

theorem countP_flatMap_single (L : List String) (f : String → List Msg)
    (p : Msg → Bool) (tid : String) (hL : L.Nodup)
    (hz : ∀ x ∈ L, x ≠ tid → (f x).countP p = 0) :
    (L.flatMap f).countP p = if tid ∈ L then (f tid).countP p else 0 := by
  induction L with
  | nil => simp
  | cons a L ih =>
      rw [List.flatMap_cons, List.countP_append]
      rcases List.nodup_cons.1 hL with ⟨ha, hL2⟩
      by_cases hat : a = tid
      · subst hat
        have hz2 : (L.flatMap f).countP p = 0 :=
          countP_flatMap_zero L f p
            (fun x hx => hz x (List.mem_cons_of_mem _ hx) (fun he => ha (he ▸ hx)))
        simp [hz2]
      · rw [hz a (List.mem_cons_self _ _) hat,
          ih hL2 (fun x hx hxt => hz x (List.mem_cons_of_mem _ hx) hxt)]
        by_cases hmem : tid ∈ L <;> simp [hmem, hat, Ne.symm hat]

theorem countP_noticesFor_ne (st : St) (x tid : String) (uid : ℤ) (hne : x ≠ tid) :
    (noticesFor st x).countP
        (fun m => decide (m.recipient = uid) && decide (m.kind = MsgKind.expired tid)) = 0 := by
  unfold noticesFor
  cases alookup st.trade_data x with
  | none => rfl
  | some t =>
      by_cases hc : t.completed <;> simp [hc, hne]

theorem cleanup_msgs_countP (st : St) (now : ℚ) (tid : String) (uid : ℤ)
    (hk : keysNodup st.trade_data) :
    (cleanup_old_trades st now).2.countP
        (fun m => decide (m.recipient = uid) && decide (m.kind = MsgKind.expired tid))
      = expiredNoticeCount st now tid uid := by
  have hLnd : (expiredIds st now).Nodup := expiredIds_nodup st now hk
  rw [cleanup_old_trades, cleanup_foldl_msgs _ _ _ hk hLnd, List.nil_append]
  rw [countP_flatMap_single _ _ _ tid hLnd
    (fun x _ hxt => countP_noticesFor_ne st x tid uid hxt)]
  by_cases hmem : tid ∈ expiredIds st now
  · obtain ⟨t, hlk, hexp⟩ := (mem_expiredIds st now tid hk).1 hmem
    rw [if_pos hmem]
    unfold noticesFor expiredNoticeCount
    rw [hlk]
    by_cases hc : t.completed
    · simp [hc, hexp]
    · by_cases hu : t.user_id = uid <;> by_cases hp : t.partner_id = uid <;>
        simp [hc, hexp, hu, hp]
  · rw [if_neg hmem]
    unfold expiredNoticeCount
    cases hlk : alookup st.trade_data tid with
    | none => rfl
    | some t =>
        have hnexp : tradeExpired now t = false := by
          by_contra hc
          rw [Bool.not_eq_false] at hc
          exact hmem ((mem_expiredIds st now tid hk).2 ⟨t, hlk, hc⟩)
        simp [hnexp]

theorem getIdx_pruneIdx_count_self (idx : List (ℤ × List String)) (uid : ℤ)
    (tid : String) :
    (getIdx (pruneIdx idx uid tid) uid).count tid
      = (getIdx idx uid).count tid - min ((getIdx idx uid).count tid) 1 := by
  cases h : alookup idx uid with
  | none => simp [pruneIdx, getIdx, h]
  | some l =>
      simp only [pruneIdx, h]
      by_cases hmem : tid ∈ l
      · rw [if_pos hmem]
        have hpos : 0 < l.count tid := List.count_pos_iff.2 hmem
        simp only [getIdx, alookup_aset_self, Option.getD_some, h,
          List.count_erase_self]
        omega
      · rw [if_neg hmem]
        have h0 : l.count tid = 0 := List.count_eq_zero.2 hmem
        simp [getIdx, h, h0]

theorem getIdx_pruneIdx_ne_uid (idx : List (ℤ × List String)) (uid u' : ℤ)
    (tid : String) (h : u' ≠ uid) :
    getIdx (pruneIdx idx uid tid) u' = getIdx idx u' := by
  cases hl : alookup idx uid with
  | none => simp [pruneIdx, hl]
  | some l =>
      simp only [pruneIdx, hl]
      by_cases hmem : tid ∈ l
      · rw [if_pos hmem]
        unfold getIdx
        rw [alookup_aset_ne _ _ _ _ h]
      · rw [if_neg hmem]

theorem getIdx_pruneIdx_count_ne_tid (idx : List (ℤ × List String)) (uid u' : ℤ)
    (tid x : String) (hx : x ≠ tid) :
    (getIdx (pruneIdx idx uid tid) u').count x = (getIdx idx u').count x := by
  cases hl : alookup idx uid with
  | none => simp [pruneIdx, hl]
  | some l =>
      simp only [pruneIdx, hl]
      by_cases hmem : tid ∈ l
      · rw [if_pos hmem]
        by_cases hu : u' = uid
        · subst hu
          simp only [getIdx, alookup_aset_self, Option.getD_some, hl]
          exact List.count_erase_of_ne hx l
        · unfold getIdx
          rw [alookup_aset_ne _ _ _ _ hu]
      · rw [if_neg hmem]

theorem cleanupOne_idx_count_self (acc : St × List Msg) (tid : String) (t : Trade)
    (uid : ℤ) (hl : alookup acc.1.trade_data tid = some t) :
    (getIdx (cleanupOne acc tid).1.user_active_trades uid).count tid
      = (getIdx acc.1.user_active_trades uid).count tid
        - min ((getIdx acc.1.user_active_trades uid).count tid)
            ((if t.user_id = uid then 1 else 0) + (if t.partner_id = uid then 1 else 0)) := by
  simp only [cleanupOne, hl]
  by_cases hu : t.user_id = uid <;> by_cases hp : t.partner_id = uid
  · rw [hu, hp, getIdx_pruneIdx_count_self, getIdx_pruneIdx_count_self]
    simp
    omega
  · rw [getIdx_pruneIdx_ne_uid _ _ _ _ (fun he => hp he.symm), hu,
      getIdx_pruneIdx_count_self]
    simp [hp]
  · rw [hp, getIdx_pruneIdx_count_self,
      getIdx_pruneIdx_ne_uid _ _ _ _ (fun he => hu he.symm)]
    simp [hu]
  · rw [getIdx_pruneIdx_ne_uid _ _ _ _ (fun he => hp he.symm),
      getIdx_pruneIdx_ne_uid _ _ _ _ (fun he => hu he.symm)]
    simp [hu, hp]

theorem cleanupOne_idx_count_ne (acc : St × List Msg) (tid x : String) (u' : ℤ)
    (hx : x ≠ tid) :
    (getIdx (cleanupOne acc tid).1.user_active_trades u').count x
      = (getIdx acc.1.user_active_trades u').count x := by
  cases hl : alookup acc.1.trade_data tid with
  | none => simp [cleanupOne, hl]
  | some t =>
      simp only [cleanupOne, hl]
      rw [getIdx_pruneIdx_count_ne_tid _ _ _ _ _ hx,
        getIdx_pruneIdx_count_ne_tid _ _ _ _ _ hx]

theorem cleanup_foldl_idx_count_notin (L : List String) (acc : St × List Msg)
    (tid : String) (uid : ℤ) (htid : tid ∉ L) :
    (getIdx ((L.foldl cleanupOne acc).1.user_active_trades) uid).count tid
      = (getIdx acc.1.user_active_trades uid).count tid := by
  induction L generalizing acc with
  | nil => rfl
  | cons a L ih =>
      rw [List.foldl_cons]
      have hne : tid ≠ a := fun he => htid (he ▸ List.mem_cons_self a L)
      rw [ih _ (fun hm => htid (List.mem_cons_of_mem a hm)),
        cleanupOne_idx_count_ne _ _ _ _ hne]

theorem cleanup_foldl_idx_count (L : List String) (st : St) (ms : List Msg)
    (hL : L.Nodup) (hk : keysNodup st.trade_data) (tid : String) (t : Trade)
    (uid : ℤ) (htid : tid ∈ L) (hlk : alookup st.trade_data tid = some t) :
    (getIdx ((L.foldl cleanupOne (st, ms)).1.user_active_trades) uid).count tid
      = (getIdx st.user_active_trades uid).count tid
        - min ((getIdx st.user_active_trades uid).count tid)
            ((if t.user_id = uid then 1 else 0) + (if t.partner_id = uid then 1 else 0)) := by
  induction L generalizing st ms with
  | nil => simp at htid
  | cons a L ih =>
      rw [List.foldl_cons]
      rcases List.nodup_cons.1 hL with ⟨ha, hL2⟩
      by_cases hat : a = tid
      · subst hat
        rw [cleanup_foldl_idx_count_notin L _ _ _ ha]
        exact cleanupOne_idx_count_self (st, ms) a t uid hlk
      · have htid2 : tid ∈ L := by
          rcases List.mem_cons.1 htid with he | he
          · exact absurd he.symm hat
          · exact he
        have hne : tid ≠ a := fun he => hat he.symm
        have hk2 : keysNodup (cleanupOne (st, ms) a).1.trade_data := by
          rw [cleanupOne_trade_data]
          exact keysNodup_aremove _ _ hk
        have hlk2 : alookup (cleanupOne (st, ms) a).1.trade_data tid = some t := by
          rw [cleanupOne_trade_data, alookup_aremove_ne _ _ _ hne]
          exact hlk
        have hrec := ih (cleanupOne (st, ms) a).1 (cleanupOne (st, ms) a).2
          hL2 hk2 htid2 hlk2
        rw [Prod.mk.eta] at hrec
        rw [hrec, cleanupOne_idx_count_ne (st, ms) a tid uid hne]

/-- C8 (amended): one sweeper run at time `now` removes from the Registry
exactly the trades with `now - lastActivityAt > 24h` (86400s), keeping
every other trade untouched, record included; it delivers the expiry
notice about a trade to a party exactly when that trade was removed, its
`completed` flag is false and the party is its initiator or counterparty
(once per role held); and for each removed trade it removes ONE occurrence
of the trade's id per party slot from the Active-Trade Index (bot.py:94's
`list.remove` drops a single occurrence), so the id is absent afterwards
whenever the party's entry listed it at most once — but a duplicated entry
(reachable through the C6 id collision) retains a stale occurrence. -/
theorem cleanup_sweep_characterization (st : St) (now : ℚ) (tid : String)
    (uid : ℤ) (hk : keysNodup st.trade_data) :
    alookup (cleanup_old_trades st now).1.trade_data tid
      = (alookup st.trade_data tid).bind
          (fun t => if tradeExpired now t = true then none else some t)
    ∧ (cleanup_old_trades st now).2.countP
        (fun m => decide (m.recipient = uid) && decide (m.kind = MsgKind.expired tid))
      = expiredNoticeCount st now tid uid
    ∧ (getIdx (cleanup_old_trades st now).1.user_active_trades uid).count tid
      = (getIdx st.user_active_trades uid).count tid
        - min ((getIdx st.user_active_trades uid).count tid) (slotsOf st now tid uid)
    ∧ ((getIdx st.user_active_trades uid).count tid ≤ 1 →
        removedPartyOf st now tid uid = true →
        tid ∉ getIdx (cleanup_old_trades st now).1.user_active_trades uid) := by
  have hc3 : (getIdx (cleanup_old_trades st now).1.user_active_trades uid).count tid
      = (getIdx st.user_active_trades uid).count tid
        - min ((getIdx st.user_active_trades uid).count tid) (slotsOf st now tid uid) := by
    by_cases hmem : tid ∈ expiredIds st now
    · obtain ⟨t, hlk, hexp⟩ := (mem_expiredIds st now tid hk).1 hmem
      rw [cleanup_old_trades,
        cleanup_foldl_idx_count (expiredIds st now) st []
          (expiredIds_nodup st now hk) hk tid t uid hmem hlk]
      simp only [slotsOf, hlk]
      rw [if_pos hexp]
    · rw [cleanup_old_trades, cleanup_foldl_idx_count_notin _ _ _ _ hmem]
      have hs : slotsOf st now tid uid = 0 := by
        unfold slotsOf
        cases hlk : alookup st.trade_data tid with
        | none => rfl
        | some t =>
            have hnexp : tradeExpired now t = false := by
              by_contra hcc
              rw [Bool.not_eq_false] at hcc
              exact hmem ((mem_expiredIds st now tid hk).2 ⟨t, hlk, hcc⟩)
            simp [hnexp]
      rw [hs]
      simp
  refine ⟨?_, cleanup_msgs_countP st now tid uid hk, hc3, ?_⟩
  · rw [cleanup_trade_data_lookup st now tid hk]
    cases hlk : alookup st.trade_data tid with
    | none =>
        by_cases hmem : tid ∈ expiredIds st now <;> simp [hmem]
    | some t =>
        by_cases hmem : tid ∈ expiredIds st now
        · obtain ⟨t2, hlk2, hexp⟩ := (mem_expiredIds st now tid hk).1 hmem
          rw [hlk] at hlk2
          injection hlk2 with he
          subst he
          simp [hmem, hexp]
        · have hnexp : tradeExpired now t = false := by
            by_contra hc
            rw [Bool.not_eq_false] at hc
            exact hmem ((mem_expiredIds st now tid hk).2 ⟨t, hlk, hc⟩)
          simp [hmem, hnexp]
  · intro hle hrp
    have hs1 : 1 ≤ slotsOf st now tid uid := by
      unfold removedPartyOf at hrp
      cases hlk : alookup st.trade_data tid with
      | none =>
          rw [hlk] at hrp
          simp at hrp
      | some t =>
          rw [hlk] at hrp
          simp only [Bool.and_eq_true, Bool.or_eq_true, decide_eq_true_eq] at hrp
          simp only [slotsOf, hlk]
          rw [if_pos hrp.1]
          by_cases hu : t.user_id = uid <;> by_cases hp : t.partner_id = uid <;>
            simp [hu, hp]
          rcases hrp.2 with h2 | h2
          · exact hu h2
          · exact hp h2
    have h0 : (getIdx (cleanup_old_trades st now).1.user_active_trades uid).count tid = 0 := by
      rw [hc3]
      omega
    exact List.count_eq_zero.1 h0

/-- Witness for `cleanup_sweep_characterization`: `demoStSweep` holds an
expired trade ("AAAAAAAA", parties 5 and 6, last activity at 0) and a fresh
one; the sweep runs at time 90000 and party 5 is queried. -/
theorem cleanup_sweep_characterization_witness :
    keysNodup demoStSweep.trade_data
    ∧ (alookup (cleanup_old_trades demoStSweep 90000).1.trade_data "AAAAAAAA"
         = (alookup demoStSweep.trade_data "AAAAAAAA").bind
             (fun t => if tradeExpired 90000 t = true then none else some t)
       ∧ (cleanup_old_trades demoStSweep 90000).2.countP
           (fun m => decide (m.recipient = (5:ℤ))
              && decide (m.kind = MsgKind.expired "AAAAAAAA"))
         = expiredNoticeCount demoStSweep 90000 "AAAAAAAA" 5
       ∧ (getIdx (cleanup_old_trades demoStSweep 90000).1.user_active_trades 5).count "AAAAAAAA"
         = (getIdx demoStSweep.user_active_trades 5).count "AAAAAAAA"
           - min ((getIdx demoStSweep.user_active_trades 5).count "AAAAAAAA")
               (slotsOf demoStSweep 90000 "AAAAAAAA" 5)
       ∧ ((getIdx demoStSweep.user_active_trades 5).count "AAAAAAAA" ≤ 1 →
           removedPartyOf demoStSweep 90000 "AAAAAAAA" 5 = true →
           "AAAAAAAA" ∉ getIdx (cleanup_old_trades demoStSweep 90000).1.user_active_trades 5)) :=
  ⟨by decide, cleanup_sweep_characterization demoStSweep 90000 "AAAAAAAA" 5 (by decide)⟩

/-- C8 counterexample to the claim as stated, at a reachable state: two
creations between parties 5 and 6 whose id draws collide (cf. C6) leave the
index entries of both parties listing "AAAAAAAA" twice; the sweep then
removes the trade from the Registry but bot.py:94's `list.remove` strips
only the first occurrence, so the removed trade's id is still present in
both parties' Active-Trade Index entries — the claimed pruning fails. -/
theorem cleanup_stale_index_entry :
    (enter_amount (enter_amount (St.mk [] []) 5 6 "dave" Role.buyer Crypto.LTC "old deal" (some 3) seed0 0).st
       5 6 "dave" Role.buyer Crypto.LTC "old deal" (some 3) seed0 0).st = demoStDup
    ∧ alookup (cleanup_old_trades demoStDup 90000).1.trade_data "AAAAAAAA" = none
    ∧ "AAAAAAAA" ∈ getIdx (cleanup_old_trades demoStDup 90000).1.user_active_trades 5
    ∧ "AAAAAAAA" ∈ getIdx (cleanup_old_trades demoStDup 90000).1.user_active_trades 6 := by
  have ht : tradeExpired 90000 demoTradeDup = true := by
    unfold tradeExpired
    rw [decide_eq_true_eq]
    norm_num [demoTradeDup, mkTrade]
  have hexp : expiredIds demoStDup 90000 = ["AAAAAAAA"] := by
    simp [expiredIds, demoStDup, List.filter_cons, ht]
  refine ⟨rfl, ?_, ?_, ?_⟩ <;> rw [cleanup_old_trades, hexp] <;> decide
